import Mathlib

/-!
Shallow embedding of `eastmoney_downloader.py` (class `EastMoneyDownloader`).

Modelling conventions:
* Python `str` is Lean `String`; Python `int` is `Int` (page counts that are
  used as loop bounds are `Nat`, matching `range`'s behaviour on nonpositive
  bounds).
* A JSON record (Python `dict`) is an association list `List (String × Option String)`;
  a value of `none` models JSON `null`, and an absent key also reads as `None`
  through `dict.get`, which `recGet` reproduces.
* Python exceptions are modelled with `Except String` (the raised message) or
  an explicit `raised` flag where partial file state matters.
* The network is an oracle `net : params → attempt → NetOutcome`; timing side
  effects (`time.sleep`) are recorded as data (the list of waited seconds)
  rather than performed.
* The CSV file on disk is `Option (List (List String))`: `none` when the file
  does not exist, otherwise the list of lines, each a list of cells.  This
  matches `csv` round-tripping (the writer quotes cells, the reader unquotes).
-/

namespace EastMoney

/-- Decidable equality for `Except`, so concrete runs can be checked by `decide`. -/
instance {ε α : Type} [DecidableEq ε] [DecidableEq α] : DecidableEq (Except ε α)
  | .error e, .error f =>
    if h : e = f then .isTrue (by rw [h]) else .isFalse (by simp [h])
  | .error _, .ok _ => .isFalse (by simp)
  | .ok _, .error _ => .isFalse (by simp)
  | .ok x, .ok y =>
    if h : x = y then .isTrue (by rw [h]) else .isFalse (by simp [h])

/-- First-match association-list lookup, the behaviour of Python `dict.get`
on our list model of dictionaries. -/
def lookupA {α : Type} (m : List (String × α)) (k : String) : Option α :=
  match m with
  | [] => none
  | (k2, v) :: rest => if k2 = k then some v else lookupA rest k

/-- A JSON record: field name to value, `none` modelling JSON `null`. -/
abbrev Record := List (String × Option String)

/-- `record.get(k)`: absent keys and `null` values both read as `None`. -/
def recGet (r : Record) (k : String) : Option String :=
  match lookupA r k with
  | some v => v
  | none => none

/-- Python truthiness of an optional string: `None` and `""` are falsy. -/
def truthy (o : Option String) : Bool :=
  match o with
  | some s => if s = "" then false else true
  | none => false

/-- Python `str.upper` on the inputs in play: ASCII case mapping, identity on
CJK characters (matching `Char.toUpper`). -/
def pyUpper (s : String) : String := ⟨s.data.map Char.toUpper⟩

/-- Python `str.lower` on the inputs in play. -/
def pyLower (s : String) : String := ⟨s.data.map Char.toLower⟩

/-- Python `str.strip()`: drop whitespace from both ends. -/
def pyStrip (s : String) : String :=
  ⟨((s.data.dropWhile Char.isWhitespace).reverse.dropWhile Char.isWhitespace).reverse⟩

/-- `str.endswith` as used by `os.path.join`. -/
def pyEndsWith (s suffix : String) : Bool := suffix.data.isSuffixOf s.data

/-- Python `a or b` on optional strings: `a` when truthy, else `b`. -/
def pyOr (a b : Option String) : Option String :=
  if truthy a then a else b

/-- Per-quarter configuration: report-date month, day and Chinese name,
from `EastMoneyDownloader.QUARTERS`. -/
structure QuarterConfig where
  month : String
  day : String
  name : String
deriving Repr, DecidableEq

/-- The `QUARTERS` class attribute. -/
def QUARTERS : List (String × QuarterConfig) :=
  [("Q1", ⟨"03", "31", "一季报"⟩),
   ("Q2", ⟨"06", "30", "半年报"⟩),
   ("Q3", ⟨"09", "30", "三季报"⟩),
   ("Q4", ⟨"12", "31", "年报"⟩)]

/-- The `QUARTER_ALIASES` class attribute. -/
def QUARTER_ALIASES : List (String × String) :=
  [("一季报", "Q1"), ("1季报", "Q1"), ("1", "Q1"), ("q1", "Q1"),
   ("半年报", "Q2"), ("中报", "Q2"), ("2季报", "Q2"), ("2", "Q2"), ("q2", "Q2"),
   ("三季报", "Q3"), ("3季报", "Q3"), ("3", "Q3"), ("q3", "Q3"),
   ("年报", "Q4"), ("四季报", "Q4"), ("4季报", "Q4"), ("4", "Q4"), ("q4", "Q4")]

/-- The `column_names` table set in `__init__`: canonical field name to
localized (Chinese) column label. -/
def column_names : List (String × String) :=
  [("SECURITY_CODE", "股票代码"),
   ("SECURITY_NAME_ABBR", "股票简称"),
   ("TRADE_MARKET", "交易市场"),
   ("UPDATE_DATE", "更新日期"),
   ("REPORTDATE", "报告日期"),
   ("BASIC_EPS", "每股收益(元)"),
   ("DEDUCT_BASIC_EPS", "扣非每股收益(元)"),
   ("TOTAL_OPERATE_INCOME", "营业总收入(元)"),
   ("PARENT_NETPROFIT", "净利润(元)"),
   ("WEIGHTAVG_ROE", "净资产收益率(%)"),
   ("YSTZ", "营收同比增长(%)"),
   ("SJLTZ", "净利润同比增长(%)"),
   ("BPS", "每股净资产(元)"),
   ("MGJYXJJE", "每股经营现金流(元)"),
   ("XSMLL", "销售毛利率(%)"),
   ("YSHZ", "营收环比增长(%)"),
   ("SJLHZ", "净利润环比增长(%)"),
   ("ASSIGNDSCRPT", "分配方案"),
   ("NOTICE_DATE", "公告日期"),
   ("ORG_CODE", "组织代码"),
   ("SECUCODE", "证券代码")]

/-- `self.column_names.get(f, f)`: the localized label of a field, falling
back to the raw field name. -/
def columnName (f : String) : String :=
  match lookupA column_names f with
  | some zh => zh
  | none => f

/-- The error message raised by `normalize_quarter` for an unrecognized token. -/
def invalidQuarterMsg (quarter : String) : String :=
  "无效的季度参数: " ++ quarter ++ "，支持: Q1/Q2/Q3/Q4 或 一季报/半年报/三季报/年报"

/-- `normalize_quarter`: strip/upper to match a canonical code, else
strip/lower to match an alias, else raise `ValueError`. -/
def normalize_quarter (quarter : String) : Except String String :=
  let q := pyUpper (pyStrip quarter)
  if (lookupA QUARTERS q).isSome then .ok q
  else
    let q_lower := pyLower (pyStrip quarter)
    match lookupA QUARTER_ALIASES q_lower with
    | some q2 => .ok q2
    | none => .error (invalidQuarterMsg quarter)

/-- `get_report_date`: year and normalized quarter give `"YYYY-MM-DD"`. -/
def get_report_date (year : Int) (quarter : String) : Except String String :=
  match normalize_quarter quarter with
  | .error e => .error e
  | .ok q =>
    match lookupA QUARTERS q with
    | some config => .ok (toString year ++ "-" ++ config.month ++ "-" ++ config.day)
    | none => .error ""

/-- `get_quarter_name`: the Chinese name of the normalized quarter. -/
def get_quarter_name (quarter : String) : Except String String :=
  match normalize_quarter quarter with
  | .error e => .error e
  | .ok q =>
    match lookupA QUARTERS q with
    | some config => .ok config.name
    | none => .error ""

/-- `os.path.join` for our use site: the second component is never absolute. -/
def path_join (a b : String) : String :=
  if a = "" then b
  else if pyEndsWith a "/" then a ++ b
  else a ++ "/" ++ b

/-- `get_output_filepath`: `output_dir/业绩报表_{year}年{name}.csv`. -/
def get_output_filepath (output_dir : String) (year : Int) (quarter : String) :
    Except String String :=
  match normalize_quarter quarter with
  | .error e => .error e
  | .ok q =>
    match lookupA QUARTERS q with
    | some config =>
      .ok (path_join output_dir ("业绩报表_" ++ toString year ++ "年" ++ config.name ++ ".csv"))
    | none => .error ""

/-- The `result` object of a successful API response:
`{count: int, pages: int, data: [Record]}`.  The source reads these fields
with `.get` and defaults `0` / `1` / `[]`; the model keeps them as present
fields (no claim depends on an absent field). -/
structure PageResult where
  count : Nat
  pages : Nat
  data : List Record
deriving Repr, DecidableEq

/-- What one `requests.get` attempt can produce: a raised
`RequestException`/`JSONDecodeError`, or a parsed JSON body with its
`success` flag, optional `message` and optional `result`. -/
inductive NetOutcome where
  | exception : NetOutcome
  | response (success : Bool) (message : Option String) (result : Option PageResult)
deriving Repr, DecidableEq

/-- The network as an oracle: request parameters and attempt number to outcome. -/
abbrev Net := List (String × String) → Nat → NetOutcome

/-- Observable outcome of `fetch_page`: the returned value, the backoff
sleeps performed (in seconds), how many attempts ran, and the API error
message printed when the success flag was false. -/
structure FetchOutput where
  result : Option PageResult
  sleeps : List Nat
  attempts : Nat
  api_error : Option String
deriving Repr, DecidableEq

/-- A single-quote character, for the filter expression. -/
def sq : String := (Char.ofNat 39).toString

/-- The `params` dict built by `fetch_page`. -/
def build_params (report_date : String) (page page_size : Nat) : List (String × String) :=
  [("sortColumns", "UPDATE_DATE,SECURITY_CODE"),
   ("sortTypes", "-1,-1"),
   ("pageSize", toString page_size),
   ("pageNumber", toString page),
   ("reportName", "RPT_LICO_FN_CPD"),
   ("columns", "ALL"),
   ("filter", "(REPORTDATE=" ++ sq ++ report_date ++ sq ++ ")"),
   ("source", "WEB"),
   ("client", "WEB")]

/-- The retry loop of `fetch_page` over the attempt numbers
`range(1, max_retries + 1)`.  On an exception with `attempt < max_retries`
it sleeps `attempt * 2` seconds and continues; on the last attempt it
returns `None`.  On a parsed response it returns `result` when `success`
is truthy, else prints the server message and returns `None`. -/
def fetch_loop (outcome : Nat → NetOutcome) (max_retries : Nat) :
    List Nat → List Nat → FetchOutput
  | [], sleeps => ⟨none, sleeps, 0, none⟩
  | attempt :: rest, sleeps =>
    match outcome attempt with
    | .exception =>
      if attempt < max_retries then
        fetch_loop outcome max_retries rest (sleeps ++ [attempt * 2])
      else ⟨none, sleeps, attempt, none⟩
    | .response success message result =>
      if success then ⟨result, sleeps, attempt, none⟩
      else ⟨none, sleeps, attempt, some (message.getD "未知错误")⟩

/-- `fetch_page`: build the request from the report date and drive the retry
loop.  The `Except` layer carries the `ValueError` that `get_report_date`
raises on an invalid quarter token. -/
def fetch_page (net : Net) (year : Int) (quarter : String)
    (page page_size max_retries : Nat) : Except String FetchOutput :=
  match get_report_date year quarter with
  | .error e => .error e
  | .ok report_date =>
    .ok (fetch_loop (net (build_params report_date page page_size)) max_retries
          (List.range' 1 max_retries) [])

/-- `csv.DictReader` pairing of a header line with a data line:
`dict(zip(fieldnames, row))`.  A Python dict keeps the LAST value bound to a
duplicated key, which first-match `lookupA` reproduces on the reversed pair
list; a short row leaves the trailing keys unbound, which `lookupA` reads
as `None`. -/
def zipDict (header row : List String) : List (String × String) :=
  (header.zip row).reverse

/-- The body of the `load_existing_codes` loop for one row:
`row.get('股票代码') or row.get('SECURITY_CODE')`, kept only if truthy. -/
def extractCode (header row : List String) : Option String :=
  let code := pyOr (lookupA (zipDict header row) "股票代码")
                   (lookupA (zipDict header row) "SECURITY_CODE")
  if truthy code then code else none

/-- The row iteration of `load_existing_codes`, accumulating the set of
codes (as a duplicate-free list). -/
def collect_codes (header : List String) : List (List String) → List String → List String
  | [], acc => acc
  | row :: rest, acc =>
    match extractCode header row with
    | some c => collect_codes header rest (if c ∈ acc then acc else acc ++ [c])
    | none => collect_codes header rest acc

/-- `load_existing_codes`: empty set when the file does not exist; otherwise
scan header and rows.  `errorAfter = some k` models an exception raised
after `k` rows were processed — the `except` clause returns the partial
set collected so far. -/
def load_existing_codes (file : Option (List (List String))) (errorAfter : Option Nat) :
    List String :=
  match file with
  | none => []
  | some [] => []
  | some (header :: rows) =>
    let rows2 := match errorAfter with
      | some k => rows.take k
      | none => rows
    collect_codes header rows2 []

/-- `list(record.keys())`. -/
def keysOf (r : Record) : List String := r.map Prod.fst

/-- The line `csv.DictWriter.writerow(record)` emits: the record's values in
field order, absent keys and `None` values rendered as empty cells. -/
def rowOf (fieldnames : List String) (r : Record) : List String :=
  fieldnames.map (fun f => (recGet r f).getD "")

/-- `DictWriter.writerow` raises `ValueError` when the record has keys
outside the writer's field list. -/
def wrongFields (fieldnames : List String) (r : Record) : Bool :=
  !(keysOf r).all (fun k => fieldnames.contains k)

/-- Result of `_process_page`: count of appended records, the updated
existing-keys set, the emitted lines in order, and whether `writerow`
raised `ValueError` (in which case earlier lines of the page persist). -/
structure PageProc where
  new_count : Nat
  ex : List String
  written : List (List String)
  raised : Bool
deriving Repr, DecidableEq

/-- `_process_page`: for each record in page order, take its
`SECURITY_CODE`; if truthy and not yet in the set, write the row, add the
code, bump the count; otherwise skip silently. -/
def _process_page (fieldnames : List String) : List Record → List String → PageProc
  | [], ex => ⟨0, ex, [], false⟩
  | r :: rest, ex =>
    let code := recGet r "SECURITY_CODE"
    if truthy code && !ex.contains (code.getD "") then
      if wrongFields fieldnames r then
        ⟨0, ex, [], true⟩
      else
        let s := _process_page fieldnames rest (ex ++ [code.getD ""])
        ⟨s.new_count + 1, s.ex, rowOf fieldnames r :: s.written, s.raised⟩
    else _process_page fieldnames rest ex

/-- State threaded through the page loop of `download`. -/
structure LoopState where
  total : Nat
  ex : List String
  lines : List (List String)
  raised : Bool
deriving Repr, DecidableEq

/-- The `for page in range(2, total_pages + 1)` loop of `download`: a failed
fetch is logged and skipped; a successful one is processed and its new
records accumulated.  A `writerow` exception aborts the loop. -/
def pages_loop (fetchRes : Nat → Option PageResult) (fieldnames : List String) :
    List Nat → LoopState → LoopState
  | [], s => s
  | p :: ps, s =>
    match fetchRes p with
    | none => pages_loop fetchRes fieldnames ps s
    | some res =>
      let pp := _process_page fieldnames res.data s.ex
      let s2 : LoopState := ⟨s.total + pp.new_count, pp.ex, s.lines ++ pp.written, pp.raised⟩
      if pp.raised then s2 else pages_loop fetchRes fieldnames ps s2

/-- Outcome of one `download` call: the returned count (or the message of a
propagated exception) together with the resulting output file. -/
structure DownloadResult where
  ret : Except String Nat
  file : Option (List (List String))
deriving Repr, DecidableEq

/-- Message standing for the `ValueError` that `csv.DictWriter` raises on a
record with keys outside the field list. -/
def writeErrorMsg : String := "ValueError: dict contains fields not in fieldnames"

/-- `fetch_page` as `download` uses it: default page size 50, 3 retries, and
a falsy (`None` or missing) result treated as a failed page.  The error
branch is unreachable here because `download` always passes a canonical
quarter. -/
def fetchResult (net : Net) (year : Int) (q : String) (p : Nat) : Option PageResult :=
  match fetch_page net year q p 50 3 with
  | .error _ => none
  | .ok out => out.result

/-- `os.path.exists(filepath) and os.path.getsize(filepath) > 0`. -/
def file_nonempty (st : Option (List (List String))) : Bool :=
  match st with
  | some lines => !lines.isEmpty
  | none => false

/-- `download`: normalize the quarter, load existing codes, fetch page 1,
short-circuit on failure / zero count / empty first page, else open the
file in append mode (writing the localized header when the file was absent
or empty), process page 1 and then pages `2..total_pages`.  Pacing sleeps
and log output are not modelled; `readErr` is the abstract failure point
of the resume scan (see `load_existing_codes`). -/
def download (net : Net) (st : Option (List (List String))) (readErr : Option Nat)
    (year : Int) (quarter : String) : DownloadResult :=
  match normalize_quarter quarter with
  | .error e => ⟨.error e, st⟩
  | .ok q =>
    let existing := load_existing_codes st readErr
    match fetchResult net year q 1 with
    | none => ⟨.ok 0, st⟩
    | some result =>
      if result.count = 0 then ⟨.ok 0, st⟩
      else
        match result.data with
        | [] => ⟨.ok 0, st⟩
        | r0 :: _ =>
          let fieldnames := keysOf r0
          let chinese_names := fieldnames.map columnName
          let file_exists := file_nonempty st
          let lines0 := (st.getD []) ++ (if file_exists then [] else [chinese_names])
          let pp1 := _process_page fieldnames result.data existing
          let s1 : LoopState := ⟨pp1.new_count, pp1.ex, lines0 ++ pp1.written, pp1.raised⟩
          if s1.raised then ⟨.error writeErrorMsg, some s1.lines⟩
          else
            let sF := pages_loop (fetchResult net year q) fieldnames
                        (List.range' 2 (result.pages - 1)) s1
            if sF.raised then ⟨.error writeErrorMsg, some sF.lines⟩
            else ⟨.ok sF.total, some sF.lines⟩

/-- A sequence of `download` runs on the same report unit, each reloading
the existing-keys set from the file the previous run left behind (no read
errors). -/
def runs (nets : List Net) (year : Int) (quarter : String)
    (st : Option (List (List String))) : Option (List (List String)) :=
  match nets with
  | [] => st
  | net :: rest => runs rest year quarter (download net st none year quarter).file

/-- The security code of each row of the output file, as the resume scan
reads them: extracted under the file's header, falsy codes dropped. -/
def fileCodes (file : Option (List (List String))) : List String :=
  match file with
  | none => []
  | some [] => []
  | some (header :: rows) => rows.filterMap (extractCode header)

/-- The four canonical period codes. -/
def canonicalQuarters : List String := ["Q1", "Q2", "Q3", "Q4"]

/-- The accepted alias set named by the specification: canonical codes in
both cases, numeric strings, and the localized long/short names. -/
def acceptedTokens : List String :=
  ["Q1", "Q2", "Q3", "Q4", "q1", "q2", "q3", "q4", "1", "2", "3", "4",
   "一季报", "1季报", "半年报", "中报", "2季报", "三季报", "3季报", "年报", "四季报", "4季报"]

/-- Modelled from the claim's words (spec §4.4): write every record whose
security-code key is present (non-null) and not already in the set; used
only to compare against the source's `_process_page`. -/
def _process_page_claimed (fieldnames : List String) : List Record → List String → PageProc
  | [], ex => ⟨0, ex, [], false⟩
  | r :: rest, ex =>
    let code := recGet r "SECURITY_CODE"
    if code.isSome ∧ code.getD "" ∉ ex then
      let s := _process_page_claimed fieldnames rest (ex ++ [code.getD ""])
      ⟨s.new_count + 1, s.ex, rowOf fieldnames r :: s.written, s.raised⟩
    else _process_page_claimed fieldnames rest ex

/-- The claim as amended: a record is written exactly when its security code
is present, non-null and non-empty and not yet in the set (Python
truthiness), still assuming the records fit the writer's field list. -/
def _process_page_amended (fieldnames : List String) : List Record → List String → PageProc
  | [], ex => ⟨0, ex, [], false⟩
  | r :: rest, ex =>
    let code := recGet r "SECURITY_CODE"
    if code.isSome ∧ code.getD "" ≠ "" ∧ code.getD "" ∉ ex then
      let s := _process_page_amended fieldnames rest (ex ++ [code.getD ""])
      ⟨s.new_count + 1, s.ex, rowOf fieldnames r :: s.written, s.raised⟩
    else _process_page_amended fieldnames rest ex

/-- A field list is aligned when it carries the canonical security-code
field and no other field maps to the localized label `股票代码` (which a raw
field literally named `股票代码` would). -/
def FAligned (F : List String) : Prop :=
  "SECURITY_CODE" ∈ F ∧ ∀ f ∈ F, columnName f = "股票代码" → f = "SECURITY_CODE"

/-- A network whose successful responses all observe the field list `F`:
every record's keys lie in `F` and the first record's key order is exactly
`F` (the source derives the CSV schema from that first record). -/
def NetAligned (F : List String) (net : Net) : Prop :=
  ∀ params attempt msg res, net params attempt = .response true msg (some res) →
    (∀ r ∈ res.data, ∀ k ∈ keysOf r, k ∈ F) ∧
    (∀ r0 rest, res.data = r0 :: rest → keysOf r0 = F)

/-- Invariant of the output file under field list `F`: absent or empty, or
headed by the localized header of `F` with duplicate-free row codes. -/
def GoodFile (F : List String) : Option (List (List String)) → Prop
  | none => True
  | some [] => True
  | some (header :: rows) =>
    header = F.map columnName ∧ (rows.filterMap (extractCode header)).Nodup

/-- First run of the C1 counterexample: one page whose single record lists
the code field second. -/
def cexNet1 : Net := fun _ _ =>
  .response true none (some ⟨1, 1, [[("X", some "001"), ("SECURITY_CODE", some "001")]]⟩)

/-- Second run of the C1 counterexample: the same record keyed in the other
order, carrying a fresh code, so its cells land under the first run's
header misaligned. -/
def cexNet2 : Net := fun _ _ =>
  .response true none (some ⟨1, 1, [[("SECURITY_CODE", some "002"), ("X", some "001")]]⟩)

/-- C9 counterexample network: a record with a raw field literally named
`股票代码` after `SECURITY_CODE`.  Both columns of the written row then
carry the header label `股票代码`, and `dict(zip(...))` keeps the last one,
so the resume scan re-reads the wrong column. -/
def cexNet3 : Net := fun _ _ =>
  .response true none (some ⟨1, 1, [[("SECURITY_CODE", some "001"), ("股票代码", some "aaa")]]⟩)

/-- The resume-correctness example page keyed {A, B, C}. -/
def abcPage : List Record :=
  [[("SECURITY_CODE", some "A")], [("SECURITY_CODE", some "B")], [("SECURITY_CODE", some "C")]]

/-- First witness network for the no-duplicate invariant: a single page
carrying code 001. -/
def wNet1 : Net := fun _ _ =>
  .response true none (some ⟨1, 1, [[("SECURITY_CODE", some "001")]]⟩)

/-- Second witness network: the same page plus a fresh code 002; the rerun
must only append 002. -/
def wNet2 : Net := fun _ _ =>
  .response true none
    (some ⟨2, 1, [[("SECURITY_CODE", some "001")], [("SECURITY_CODE", some "002")]]⟩)

/-- A five-page network whose third page always fails, for the soft-failure
scenario: pages keyed A,B / C / (down) / D,A / E. -/
def c8Net : Net := fun params _ =>
  match lookupA params "pageNumber" with
  | some "1" => .response true none
      (some ⟨10, 5, [[("SECURITY_CODE", some "A")], [("SECURITY_CODE", some "B")]]⟩)
  | some "2" => .response true none (some ⟨10, 5, [[("SECURITY_CODE", some "C")]]⟩)
  | some "4" => .response true none
      (some ⟨10, 5, [[("SECURITY_CODE", some "D")], [("SECURITY_CODE", some "A")]]⟩)
  | some "5" => .response true none (some ⟨10, 5, [[("SECURITY_CODE", some "E")]]⟩)
  | _ => .exception

end EastMoney

namespace EastMoney

/-! Sanity checks of the embedding on concrete inputs. -/

example : normalize_quarter "q2" = .ok "Q2" := by decide
example : normalize_quarter " 半年报 " = .ok "Q2" := by decide
example : normalize_quarter "中报" = .ok "Q2" := by decide
example : (normalize_quarter "Q5").isOk = false := by decide
example : get_report_date 2024 "Q4" = .ok "2024-12-31" := by decide
example : get_report_date 2024 "半年报" = .ok "2024-06-30" := by decide
example : get_output_filepath "data" 2024 "1" = .ok "data/业绩报表_2024年一季报.csv" := by decide

/-! Generic facts about association-list lookup. -/

theorem lookupA_isSome_mem_keys {α : Type} {m : List (String × α)} {k : String}
    (h : (lookupA m k).isSome = true) : k ∈ m.map Prod.fst := by
  induction m with
  | nil => simp [lookupA] at h
  | cons p rest ih =>
    obtain ⟨k2, v⟩ := p
    rw [lookupA] at h
    by_cases hk : k2 = k
    · simp [hk]
    · rw [if_neg hk] at h
      simp [ih h]

theorem lookupA_eq_some_mem_values {α : Type} {m : List (String × α)} {k : String} {v : α}
    (h : lookupA m k = some v) : v ∈ m.map Prod.snd := by
  induction m with
  | nil => simp [lookupA] at h
  | cons p rest ih =>
    obtain ⟨k2, v2⟩ := p
    rw [lookupA] at h
    by_cases hk : k2 = k
    · rw [if_pos hk] at h
      simp only [Option.some.injEq] at h
      simp [h]
    · rw [if_neg hk] at h
      simp [ih h]

/-- C3: `normalize_quarter` maps every token of the accepted alias set
(canonical codes case-insensitively, numeric strings, localized names) to
one of the four canonical codes, and any token outside that set — neither
its stripped uppercase form a canonical code nor its stripped lowercase
form an alias — is rejected with the `ValueError` message naming the
accepted forms. -/
theorem normalize_quarter_total :
    (∀ t ∈ acceptedTokens, ∃ q ∈ canonicalQuarters, normalize_quarter t = .ok q) ∧
    (∀ s, (lookupA QUARTERS (pyUpper (pyStrip s))).isSome = false →
      (lookupA QUARTER_ALIASES (pyLower (pyStrip s))).isSome = false →
      normalize_quarter s = .error (invalidQuarterMsg s)) := by
  constructor
  · decide
  · intro s h1 h2
    simp only [normalize_quarter, h1]
    cases hA : lookupA QUARTER_ALIASES (pyLower (pyStrip s)) with
    | none => simp
    | some q2 => rw [hA] at h2; simp at h2

/-- Witness for C3 at a concrete accepted and a concrete rejected token. -/
theorem normalize_quarter_total_witness :
    ("中报" ∈ acceptedTokens ∧ ∃ q ∈ canonicalQuarters, normalize_quarter "中报" = .ok q) ∧
    ((lookupA QUARTERS (pyUpper (pyStrip "FY2024"))).isSome = false ∧
      (lookupA QUARTER_ALIASES (pyLower (pyStrip "FY2024"))).isSome = false ∧
      normalize_quarter "FY2024" = .error (invalidQuarterMsg "FY2024")) :=
  ⟨⟨by decide, normalize_quarter_total.1 "中报" (by decide)⟩,
   by decide, by decide,
   normalize_quarter_total.2 "FY2024" (by decide) (by decide)⟩

/-! The retry loop of `fetch_page`. -/

theorem fetch_loop_cons (outcome : Nat → NetOutcome) (mr attempt : Nat)
    (rest sleeps : List Nat) :
    fetch_loop outcome mr (attempt :: rest) sleeps =
      match outcome attempt with
      | .exception =>
        if attempt < mr then fetch_loop outcome mr rest (sleeps ++ [attempt * 2])
        else ⟨none, sleeps, attempt, none⟩
      | .response success message result =>
        if success then ⟨result, sleeps, attempt, none⟩
        else ⟨none, sleeps, attempt, some (message.getD "未知错误")⟩ := rfl

theorem fetch_loop_all_exception (outcome : Nat → NetOutcome) (max_retries : Nat)
    (hexc : ∀ a, outcome a = .exception) :
    ∀ k, 1 ≤ k → ∀ a acc, a + k = max_retries + 1 →
      fetch_loop outcome max_retries (List.range' a k) acc =
        ⟨none, acc ++ (List.range' a (k - 1)).map (fun x => x * 2), max_retries, none⟩ := by
  intro k
  induction k with
  | zero => omega
  | succ n ih =>
    intro _ a acc hsum
    rw [List.range'_succ, fetch_loop, hexc a]
    cases n with
    | zero =>
      have ha : a = max_retries := by omega
      simp [ha, List.range']
    | succ m =>
      have ha : a < max_retries := by omega
      rw [if_pos ha, ih (by omega) (a + 1) (acc ++ [a * 2]) (by omega)]
      simp [List.range'_succ]

/-- C4: when every attempt raises a transport or parse error, `fetch_page`
makes `max_retries` attempts, sleeping `attempt * 2` seconds between them
(2s, 4s, ...), and after exhausting them returns `None` softly instead of
raising. -/
theorem fetch_page_retries_exhausted (net : Net) (year : Int) (quarter : String)
    (page page_size max_retries : Nat) (report_date : String)
    (hrd : get_report_date year quarter = .ok report_date)
    (hmr : 1 ≤ max_retries)
    (hexc : ∀ a, net (build_params report_date page page_size) a = .exception) :
    fetch_page net year quarter page page_size max_retries =
      .ok ⟨none, (List.range' 1 (max_retries - 1)).map (fun x => x * 2), max_retries, none⟩ := by
  simp only [fetch_page, hrd]
  rw [fetch_loop_all_exception _ _ hexc max_retries hmr 1 [] (by omega)]
  simp

/-- Witness for C4: a network that always fails, three retries, backoff 2s
then 4s. -/
theorem fetch_page_retries_exhausted_witness :
    get_report_date 2024 "Q4" = .ok "2024-12-31" ∧ 1 ≤ 3 ∧
    (∀ a, (fun _ _ => NetOutcome.exception : Net)
      (build_params "2024-12-31" 5 50) a = .exception) ∧
    fetch_page (fun _ _ => NetOutcome.exception) 2024 "Q4" 5 50 3 =
      .ok ⟨none, [2, 4], 3, none⟩ := by
  refine ⟨by decide, by decide, fun a => rfl, ?_⟩
  have h := fetch_page_retries_exhausted (fun _ _ => NetOutcome.exception) 2024 "Q4" 5 50 3
    "2024-12-31" (by decide) (by decide) (fun a => rfl)
  simpa using h

/-- C5: a response that parses but carries a false success flag makes
`fetch_page` return `None` on the very first attempt: no retry, no backoff
sleep, and the server-reported message (or the default `未知错误`) is the
one surfaced to the log. -/
theorem fetch_page_server_failure (net : Net) (year : Int) (quarter : String)
    (page page_size max_retries : Nat) (report_date : String) (msg : Option String)
    (res : Option PageResult)
    (hrd : get_report_date year quarter = .ok report_date)
    (hmr : 1 ≤ max_retries)
    (hresp : net (build_params report_date page page_size) 1 = .response false msg res) :
    fetch_page net year quarter page page_size max_retries =
      .ok ⟨none, [], 1, some (msg.getD "未知错误")⟩ := by
  obtain ⟨n, rfl⟩ : ∃ n, max_retries = n + 1 := ⟨max_retries - 1, by omega⟩
  simp only [fetch_page, hrd, List.range'_succ, fetch_loop_cons, hresp]
  simp

/-- Witness for C5: a server-rejected request fails immediately with its
message surfaced. -/
theorem fetch_page_server_failure_witness :
    get_report_date 2024 "Q1" = .ok "2024-03-31" ∧ 1 ≤ 3 ∧
    ((fun _ _ => NetOutcome.response false (some "参数错误") none : Net)
      (build_params "2024-03-31" 1 50) 1 = .response false (some "参数错误") none) ∧
    fetch_page (fun _ _ => NetOutcome.response false (some "参数错误") none)
      2024 "Q1" 1 50 3 = .ok ⟨none, [], 1, some "参数错误"⟩ := by
  refine ⟨by decide, by decide, rfl, ?_⟩
  have h := fetch_page_server_failure (fun _ _ => NetOutcome.response false (some "参数错误") none)
    2024 "Q1" 1 50 3 "2024-03-31" (some "参数错误") none (by decide) (by decide) rfl
  simpa using h

/-! The resume scan. -/

theorem mem_collect_codes (header : List String) :
    ∀ rows acc c, c ∈ collect_codes header rows acc ↔
      c ∈ acc ∨ ∃ row ∈ rows, extractCode header row = some c := by
  intro rows
  induction rows with
  | nil => simp [collect_codes]
  | cons row rest ih =>
    intro acc c
    rw [collect_codes]
    cases hE : extractCode header row with
    | none =>
      rw [ih]
      have hrow : ¬ extractCode header row = some c := by simp [hE]
      constructor
      · rintro (h | h)
        · exact Or.inl h
        · obtain ⟨row2, h2, h3⟩ := h
          exact Or.inr ⟨row2, List.mem_cons_of_mem _ h2, h3⟩
      · rintro (h | ⟨row2, h2, h3⟩)
        · exact Or.inl h
        · rcases List.mem_cons.1 h2 with rfl | h2
          · exact absurd h3 hrow
          · exact Or.inr ⟨row2, h2, h3⟩
    | some c2 =>
      rw [ih]
      by_cases hc : c2 ∈ acc
      · rw [if_pos hc]
        constructor
        · rintro (h | h)
          · exact Or.inl h
          · obtain ⟨row2, h2, h3⟩ := h
            exact Or.inr ⟨row2, List.mem_cons_of_mem _ h2, h3⟩
        · rintro (h | ⟨row2, h2, h3⟩)
          · exact Or.inl h
          · rcases List.mem_cons.1 h2 with rfl | h2
            · rw [hE] at h3
              obtain rfl : c2 = c := Option.some.inj h3
              exact Or.inl hc
            · exact Or.inr ⟨row2, h2, h3⟩
      · rw [if_neg hc]
        constructor
        · rintro (h | h)
          · rcases List.mem_append.1 h with h2 | h2
            · exact Or.inl h2
            · obtain rfl : c = c2 := List.mem_singleton.1 h2
              exact Or.inr ⟨row, List.mem_cons_self _ _, hE⟩
          · obtain ⟨row2, h2, h3⟩ := h
            exact Or.inr ⟨row2, List.mem_cons_of_mem _ h2, h3⟩
        · rintro (h | ⟨row2, h2, h3⟩)
          · exact Or.inl (List.mem_append.2 (Or.inl h))
          · rcases List.mem_cons.1 h2 with rfl | h2
            · rw [hE] at h3
              obtain rfl : c2 = c := Option.some.inj h3
              exact Or.inl (List.mem_append.2 (Or.inr (List.mem_singleton.2 rfl)))
            · exact Or.inr ⟨row2, h2, h3⟩

/-- C6: the resume scan returns the empty set when the file does not exist;
on an existing file it collects, from every row it manages to read, the
security-code column — accepting the localized label `股票代码` as well as
the canonical `SECURITY_CODE` — and a parse error after `k` rows is
non-fatal, yielding exactly the partial set of the first `k` rows. -/
theorem load_existing_codes_spec :
    (∀ e, load_existing_codes none e = []) ∧
    (∀ header rows c, c ∈ load_existing_codes (some (header :: rows)) none ↔
      ∃ row ∈ rows, extractCode header row = some c) ∧
    (∀ header rows k, load_existing_codes (some (header :: rows)) (some k) =
      load_existing_codes (some (header :: rows.take k)) none) ∧
    extractCode ["SECURITY_CODE"] ["600519"] = some "600519" ∧
    extractCode ["股票代码"] ["600519"] = some "600519" := by
  refine ⟨fun e => rfl, ?_, fun header rows k => rfl, by decide, by decide⟩
  intro header rows c
  rw [load_existing_codes, mem_collect_codes]
  simp

/-! The zero-total short circuit. -/

/-- C7: when the first page reports a total count of 0, `download` returns 0
immediately and the output file is untouched — not created when absent, not
appended to when present — because the file is only opened after this
check. -/
theorem download_zero_total (net : Net) (st : Option (List (List String)))
    (readErr : Option Nat) (year : Int) (quarter q : String) (res : PageResult)
    (hq : normalize_quarter quarter = .ok q)
    (h1 : fetchResult net year q 1 = some res)
    (hcount : res.count = 0) :
    download net st readErr year quarter = ⟨.ok 0, st⟩ := by
  simp [download, hq, h1, hcount]

/-- Witness for C7: a server with zero records leaves an existing two-line
file exactly as it was. -/
theorem download_zero_total_witness :
    normalize_quarter "Q2" = .ok "Q2" ∧
    fetchResult (fun _ _ => NetOutcome.response true none (some ⟨0, 1, []⟩)) 2024 "Q2" 1 =
      some ⟨0, 1, []⟩ ∧
    (⟨0, 1, []⟩ : PageResult).count = 0 ∧
    download (fun _ _ => NetOutcome.response true none (some ⟨0, 1, []⟩))
      (some [["h"], ["x"]]) none 2024 "Q2" = ⟨.ok 0, some [["h"], ["x"]]⟩ :=
  ⟨by decide, by decide, rfl,
   download_zero_total (fun _ _ => NetOutcome.response true none (some ⟨0, 1, []⟩))
     (some [["h"], ["x"]]) none 2024 "Q2" "Q2" ⟨0, 1, []⟩ (by decide) (by decide) rfl⟩

/-! The page processor. -/

/-- C2 counterexample: a record whose security code is the empty string has
its key present and non-null, so the claim as stated says the row is
written and counted; `_process_page` skips it, because Python truthiness
treats `""` like a missing key. -/
theorem process_page_empty_code_counterexample :
    _process_page ["SECURITY_CODE"] [[("SECURITY_CODE", some "")]] [] ≠
      _process_page_claimed ["SECURITY_CODE"] [[("SECURITY_CODE", some "")]] [] ∧
    (_process_page ["SECURITY_CODE"] [[("SECURITY_CODE", some "")]] []).new_count = 0 ∧
    (_process_page_claimed ["SECURITY_CODE"] [[("SECURITY_CODE", some "")]] []).new_count = 1 := by
  decide

/-- C2 amended: on records whose keys fit the writer's field list,
`_process_page` writes exactly those records whose security code is
present, non-null and non-empty and not already in the set, in page order,
adding each written key to the set and counting the writes; records with a
missing, null or empty code are silently skipped. -/
theorem process_page_cons (F : List String) (r : Record) (rest : List Record)
    (ex : List String) :
    _process_page F (r :: rest) ex =
      if (truthy (recGet r "SECURITY_CODE") &&
          !ex.contains ((recGet r "SECURITY_CODE").getD "")) = true then
        if wrongFields F r = true then ⟨0, ex, [], true⟩
        else
          ⟨(_process_page F rest (ex ++ [(recGet r "SECURITY_CODE").getD ""])).new_count + 1,
           (_process_page F rest (ex ++ [(recGet r "SECURITY_CODE").getD ""])).ex,
           rowOf F r ::
             (_process_page F rest (ex ++ [(recGet r "SECURITY_CODE").getD ""])).written,
           (_process_page F rest (ex ++ [(recGet r "SECURITY_CODE").getD ""])).raised⟩
      else _process_page F rest ex := rfl

theorem process_page_amended_cons (F : List String) (r : Record) (rest : List Record)
    (ex : List String) :
    _process_page_amended F (r :: rest) ex =
      if (recGet r "SECURITY_CODE").isSome = true ∧
          (recGet r "SECURITY_CODE").getD "" ≠ "" ∧
          (recGet r "SECURITY_CODE").getD "" ∉ ex then
        ⟨(_process_page_amended F rest
            (ex ++ [(recGet r "SECURITY_CODE").getD ""])).new_count + 1,
         (_process_page_amended F rest (ex ++ [(recGet r "SECURITY_CODE").getD ""])).ex,
         rowOf F r ::
           (_process_page_amended F rest (ex ++ [(recGet r "SECURITY_CODE").getD ""])).written,
         (_process_page_amended F rest (ex ++ [(recGet r "SECURITY_CODE").getD ""])).raised⟩
      else _process_page_amended F rest ex := rfl

theorem process_page_amended_correct (fieldnames : List String) :
    ∀ (data : List Record) (ex : List String),
      (∀ r ∈ data, ∀ k ∈ keysOf r, k ∈ fieldnames) →
      _process_page fieldnames data ex = _process_page_amended fieldnames data ex := by
  intro data
  induction data with
  | nil => intro ex _; rfl
  | cons r rest ih =>
    intro ex hkeys
    have hrest : ∀ r2 ∈ rest, ∀ k ∈ keysOf r2, k ∈ fieldnames :=
      fun r2 h2 => hkeys r2 (List.mem_cons_of_mem _ h2)
    have hwf : wrongFields fieldnames r = false := by
      have hk := hkeys r (List.mem_cons_self _ _)
      simp only [wrongFields, Bool.not_eq_false', List.all_eq_true]
      intro k hkmem
      simpa using hk k hkmem
    rw [process_page_cons, process_page_amended_cons]
    cases hcode : recGet r "SECURITY_CODE" with
    | none =>
      have h1 : (truthy none && !ex.contains ((none : Option String).getD "")) = false := rfl
      have h2 : ¬ ((none : Option String).isSome = true ∧
          (none : Option String).getD "" ≠ "" ∧ (none : Option String).getD "" ∉ ex) := by
        simp
      rw [h1, if_neg Bool.false_ne_true, if_neg h2]
      exact ih ex hrest
    | some c =>
      simp only [Option.getD_some, Option.isSome_some]
      by_cases hce : c = ""
      · subst hce
        have h1 : (truthy (some "") && !ex.contains "") = false := rfl
        have h2 : ¬ (True ∧ "" ≠ "" ∧ "" ∉ ex) := by simp
        rw [h1, if_neg Bool.false_ne_true, if_neg h2]
        exact ih ex hrest
      · by_cases hmem : c ∈ ex
        · have h1 : (truthy (some c) && !ex.contains c) = false := by
            simp [truthy, hce, hmem]
          have h2 : ¬ (True ∧ c ≠ "" ∧ c ∉ ex) := fun h => h.2.2 hmem
          rw [h1, if_neg Bool.false_ne_true, if_neg h2]
          exact ih ex hrest
        · have h1 : (truthy (some c) && !ex.contains c) = true := by
            simp [truthy, hce, hmem]
          have h3 : ¬ wrongFields fieldnames r = true := by simp [hwf]
          have h4 : True ∧ c ≠ "" ∧ c ∉ ex := ⟨trivial, hce, hmem⟩
          rw [h1, if_pos rfl, if_neg h3, if_pos h4, ih (ex ++ [c]) hrest]

/-- Witness for C2: with existing keys {A, B} and a page keyed {A, B, C},
only the record keyed C is appended and the count is 1. -/
theorem process_page_amended_witness :
    (∀ r ∈ abcPage, ∀ k ∈ keysOf r, k ∈ ["SECURITY_CODE"]) ∧
    _process_page ["SECURITY_CODE"] abcPage ["A", "B"] =
      _process_page_amended ["SECURITY_CODE"] abcPage ["A", "B"] ∧
    (_process_page ["SECURITY_CODE"] abcPage ["A", "B"]).new_count = 1 ∧
    (_process_page ["SECURITY_CODE"] abcPage ["A", "B"]).written = [["C"]] ∧
    (_process_page ["SECURITY_CODE"] abcPage ["A", "B"]).ex = ["A", "B", "C"] :=
  ⟨by decide, process_page_amended_correct ["SECURITY_CODE"] abcPage ["A", "B"] (by decide),
   by decide, by decide, by decide⟩

/-! Normalization coherence. -/

theorem normalize_quarter_ok_mem {t q : String} (h : normalize_quarter t = .ok q) :
    q ∈ canonicalQuarters := by
  simp only [normalize_quarter] at h
  split at h
  · obtain rfl : pyUpper (pyStrip t) = q := Except.ok.inj h
    rename_i hcond
    have hmem := lookupA_isSome_mem_keys hcond
    have hkeys : QUARTERS.map Prod.fst = canonicalQuarters := by decide
    rwa [hkeys] at hmem
  · split at h
    · rename_i q2 hlook
      obtain rfl : q2 = q := Except.ok.inj h
      have hmem := lookupA_eq_some_mem_values hlook
      have hvals : ∀ v ∈ QUARTER_ALIASES.map Prod.snd, v ∈ canonicalQuarters := by decide
      exact hvals _ hmem
    · exact absurd h (by simp)

theorem normalize_quarter_idem {t q : String} (h : normalize_quarter t = .ok q) :
    normalize_quarter q = .ok q := by
  have hmem := normalize_quarter_ok_mem h
  have h4 : q = "Q1" ∨ q = "Q2" ∨ q = "Q3" ∨ q = "Q4" := by
    simpa [canonicalQuarters] using hmem
  rcases h4 with rfl | rfl | rfl | rfl <;> decide

/-- C10: every consumer of a period token normalizes it first, so an alias
and its canonical code are interchangeable: they give the same report
date, target the same output file, and make `download` behave
identically. -/
theorem period_alias_coherence (net : Net) (st : Option (List (List String)))
    (readErr : Option Nat) (dir t q : String) (year : Int)
    (hq : normalize_quarter t = .ok q) :
    get_report_date year t = get_report_date year q ∧
    get_output_filepath dir year t = get_output_filepath dir year q ∧
    download net st readErr year t = download net st readErr year q := by
  have hqq := normalize_quarter_idem hq
  refine ⟨?_, ?_, ?_⟩
  · simp only [get_report_date, hq, hqq]
  · simp only [get_output_filepath, hq, hqq]
  · simp only [download, hq, hqq]

/-! Soft failure of an intermediate page. -/

theorem fetchResult_first_success (net : Net) (year : Int) (q : String) (p : Nat)
    (rd : String) (msg : Option String) (res : Option PageResult)
    (hrd : get_report_date year q = .ok rd)
    (h : net (build_params rd p 50) 1 = .response true msg res) :
    fetchResult net year q p = res := by
  simp only [fetchResult, fetch_page, hrd]
  rw [show List.range' 1 3 = [1, 2, 3] from rfl, fetch_loop_cons, h]
  rfl

theorem fetchResult_all_exception (net : Net) (year : Int) (q : String) (p : Nat)
    (rd : String)
    (hrd : get_report_date year q = .ok rd)
    (h : ∀ a, net (build_params rd p 50) a = .exception) :
    fetchResult net year q p = none := by
  simp only [fetchResult, fetch_page, hrd]
  rw [fetch_loop_all_exception _ _ h 3 (by omega) 1 [] (by omega)]

theorem process_page_no_raise (F : List String) :
    ∀ (data : List Record) (ex : List String),
      (∀ r ∈ data, ∀ k ∈ keysOf r, k ∈ F) →
      (_process_page F data ex).raised = false := by
  intro data
  induction data with
  | nil => intro ex _; rfl
  | cons r rest ih =>
    intro ex hkeys
    have hrest : ∀ r2 ∈ rest, ∀ k ∈ keysOf r2, k ∈ F :=
      fun r2 h2 => hkeys r2 (List.mem_cons_of_mem _ h2)
    have hwf0 : wrongFields F r = false := by
      have hk := hkeys r (List.mem_cons_self _ _)
      simp only [wrongFields, Bool.not_eq_false', List.all_eq_true]
      intro k hkmem
      simpa using hk k hkmem
    have hwf : ¬ wrongFields F r = true := by simp [hwf0]
    rw [process_page_cons]
    by_cases hcond : (truthy (recGet r "SECURITY_CODE") &&
        !ex.contains ((recGet r "SECURITY_CODE").getD "")) = true
    · rw [if_pos hcond, if_neg hwf]
      exact ih _ hrest
    · rw [if_neg hcond]
      exact ih ex hrest

theorem pages_loop_nil (fetchRes : Nat → Option PageResult) (F : List String)
    (s : LoopState) : pages_loop fetchRes F [] s = s := rfl

theorem pages_loop_cons_none (fetchRes : Nat → Option PageResult) (F : List String)
    (p : Nat) (ps : List Nat) (s : LoopState) (h : fetchRes p = none) :
    pages_loop fetchRes F (p :: ps) s = pages_loop fetchRes F ps s := by
  simp only [pages_loop, h]

theorem pages_loop_cons_some (fetchRes : Nat → Option PageResult) (F : List String)
    (p : Nat) (ps : List Nat) (s : LoopState) (res : PageResult)
    (h : fetchRes p = some res)
    (hnr : (_process_page F res.data s.ex).raised = false) :
    pages_loop fetchRes F (p :: ps) s =
      pages_loop fetchRes F ps
        ⟨s.total + (_process_page F res.data s.ex).new_count,
         (_process_page F res.data s.ex).ex,
         s.lines ++ (_process_page F res.data s.ex).written,
         (_process_page F res.data s.ex).raised⟩ := by
  simp only [pages_loop, h, hnr, Bool.false_eq_true, if_false]

/-- C8: when page 3 of 5 fails all its retries, `download` skips it and still
fetches and processes pages 2, 4 and 5: the returned count is the sum of
the per-page new-record counts over the successfully fetched pages
1, 2, 4, 5 (with the existing-keys set threaded across them in order), and
exactly their new rows are appended to the file. -/
theorem download_page_failure_tolerated (net : Net) (st : Option (List (List String)))
    (readErr : Option Nat) (year : Int) (quarter q rd : String)
    (res1 res2 res4 res5 : PageResult) (r0 : Record) (rest1 : List Record)
    (m1 m2 m4 m5 : Option String)
    (hq : normalize_quarter quarter = .ok q)
    (hrd : get_report_date year q = .ok rd)
    (hp1 : net (build_params rd 1 50) 1 = .response true m1 (some res1))
    (hp2 : net (build_params rd 2 50) 1 = .response true m2 (some res2))
    (hp3 : ∀ a, net (build_params rd 3 50) a = .exception)
    (hp4 : net (build_params rd 4 50) 1 = .response true m4 (some res4))
    (hp5 : net (build_params rd 5 50) 1 = .response true m5 (some res5))
    (hcount : ¬ res1.count = 0) (hpages : res1.pages = 5)
    (hdata1 : res1.data = r0 :: rest1)
    (hk1 : ∀ r ∈ res1.data, ∀ k ∈ keysOf r, k ∈ keysOf r0)
    (hk2 : ∀ r ∈ res2.data, ∀ k ∈ keysOf r, k ∈ keysOf r0)
    (hk4 : ∀ r ∈ res4.data, ∀ k ∈ keysOf r, k ∈ keysOf r0)
    (hk5 : ∀ r ∈ res5.data, ∀ k ∈ keysOf r, k ∈ keysOf r0) :
    download net st readErr year quarter =
      (let F := keysOf r0
       let ex0 := load_existing_codes st readErr
       let pp1 := _process_page F res1.data ex0
       let pp2 := _process_page F res2.data pp1.ex
       let pp4 := _process_page F res4.data pp2.ex
       let pp5 := _process_page F res5.data pp4.ex
       ⟨.ok (pp1.new_count + pp2.new_count + pp4.new_count + pp5.new_count),
        some ((st.getD [] ++ (if file_nonempty st = true then [] else [F.map columnName])) ++
          pp1.written ++ pp2.written ++ pp4.written ++ pp5.written)⟩) := by
  have hF1 := fetchResult_first_success net year q 1 rd m1 (some res1) hrd hp1
  have hF2 := fetchResult_first_success net year q 2 rd m2 (some res2) hrd hp2
  have hF3 := fetchResult_all_exception net year q 3 rd hrd hp3
  have hF4 := fetchResult_first_success net year q 4 rd m4 (some res4) hrd hp4
  have hF5 := fetchResult_first_success net year q 5 rd m5 (some res5) hrd hp5
  have hnr1 : (_process_page (keysOf r0) res1.data
      (load_existing_codes st readErr)).raised = false :=
    process_page_no_raise _ _ _ hk1
  dsimp only
  simp only [download, hq, hF1]
  rw [if_neg hcount]
  simp only [hdata1, hpages]
  rw [show (5 : Nat) - 1 = 4 from rfl, show List.range' 2 4 = [2, 3, 4, 5] from rfl]
  rw [hdata1] at hnr1 hk1
  rw [if_neg (by simp [hnr1])]
  rw [pages_loop_cons_some _ _ _ _ _ res2 hF2 (process_page_no_raise _ _ _ hk2)]
  rw [pages_loop_cons_none _ _ _ _ _ hF3]
  rw [pages_loop_cons_some _ _ _ _ _ res4 hF4 (process_page_no_raise _ _ _ hk4)]
  rw [pages_loop_cons_some _ _ _ _ _ res5 hF5 (process_page_no_raise _ _ _ hk5)]
  rw [pages_loop_nil]
  rw [if_neg (by simp [process_page_no_raise _ res5.data _ hk5])]

/-- Witness for C8: a concrete five-page run whose third page is down yields
the records of pages 1, 2, 4, 5 and a count of 5. -/
theorem download_page_failure_tolerated_witness :
    (∀ a, c8Net (build_params "2024-12-31" 3 50) a = NetOutcome.exception) ∧
    download c8Net none none 2024 "Q4" =
      ⟨.ok 5, some [["股票代码"], ["A"], ["B"], ["C"], ["D"], ["E"]]⟩ :=
  ⟨fun a => rfl,
   (download_page_failure_tolerated c8Net none none 2024 "Q4" "Q4" "2024-12-31"
      ⟨10, 5, [[("SECURITY_CODE", some "A")], [("SECURITY_CODE", some "B")]]⟩
      ⟨10, 5, [[("SECURITY_CODE", some "C")]]⟩
      ⟨10, 5, [[("SECURITY_CODE", some "D")], [("SECURITY_CODE", some "A")]]⟩
      ⟨10, 5, [[("SECURITY_CODE", some "E")]]⟩
      [("SECURITY_CODE", some "A")] [[("SECURITY_CODE", some "B")]]
      none none none none
      (by decide) (by decide) (by decide) (by decide) (fun a => rfl) (by decide) (by decide)
      (by decide) (by decide) (by decide) (by decide) (by decide) (by decide)
      (by decide)).trans (by decide)⟩

/-! Alignment of a written row with the resume scan's extraction. -/

theorem columnName_ne_security_code (f : String) : columnName f ≠ "SECURITY_CODE" := by
  rw [columnName]
  cases h : lookupA column_names f with
  | none =>
    intro heq
    subst heq
    exact absurd h (by decide)
  | some zh =>
    have hmem := lookupA_eq_some_mem_values h
    have hvals : ∀ v ∈ column_names.map Prod.snd, v ≠ "SECURITY_CODE" := by decide
    exact hvals zh hmem

theorem wrongFields_false_of_keys (F : List String) (r : Record)
    (hk : ∀ k ∈ keysOf r, k ∈ F) : wrongFields F r = false := by
  simp only [wrongFields, Bool.not_eq_false', List.all_eq_true]
  intro k hkmem
  simpa using hk k hkmem

theorem lookupA_map_eq (g cell : String → String) (k v : String) :
    ∀ l : List String, (∃ f ∈ l, g f = k) → (∀ f ∈ l, g f = k → cell f = v) →
      lookupA (l.map (fun f => (g f, cell f))) k = some v := by
  intro l
  induction l with
  | nil => rintro ⟨f, hf, _⟩ _; simp at hf
  | cons f0 l ih =>
    rintro ⟨f, hf, hgf⟩ hall
    rw [show (f0 :: l).map (fun f => (g f, cell f)) =
        (g f0, cell f0) :: l.map (fun f => (g f, cell f)) from rfl]
    rw [lookupA]
    by_cases h0 : g f0 = k
    · rw [if_pos h0, hall f0 (List.mem_cons_self _ _) h0]
    · rw [if_neg h0]
      apply ih
      · rcases List.mem_cons.1 hf with rfl | hf2
        · exact absurd hgf h0
        · exact ⟨f, hf2, hgf⟩
      · exact fun f2 h2 => hall f2 (List.mem_cons_of_mem _ h2)

theorem lookupA_map_none (g cell : String → String) (k : String) :
    ∀ l : List String, (∀ f ∈ l, g f ≠ k) →
      lookupA (l.map (fun f => (g f, cell f))) k = none := by
  intro l
  induction l with
  | nil => intro _; rfl
  | cons f0 l ih =>
    intro hall
    rw [show (f0 :: l).map (fun f => (g f, cell f)) =
        (g f0, cell f0) :: l.map (fun f => (g f, cell f)) from rfl]
    rw [lookupA, if_neg (hall f0 (List.mem_cons_self _ _))]
    exact ih (fun f2 h2 => hall f2 (List.mem_cons_of_mem _ h2))

/-- Reading a header/row pair that both arise by mapping over one field
list: the dict is the reversed pair list over the fields. -/
theorem zipDict_map (g cell : String → String) (F : List String) :
    zipDict (F.map g) (F.map cell) =
      (F.reverse).map (fun f => (g f, cell f)) := by
  rw [zipDict, List.zip_map']
  exact (List.map_reverse _ _).symm

/-- Under an aligned field list, the code the resume scan extracts from a
row written for record `r` is exactly the record's own (truthy) security
code. -/
theorem extractCode_rowOf (F : List String) (hF : FAligned F) (r : Record) :
    extractCode (F.map columnName) (rowOf F r) =
      (if truthy (recGet r "SECURITY_CODE") = true then recGet r "SECURITY_CODE"
       else none) := by
  rw [show rowOf F r = F.map (fun f => (recGet r f).getD "") from rfl]
  simp only [extractCode]
  rw [zipDict_map columnName (fun f => (recGet r f).getD "") F]
  rw [lookupA_map_eq columnName (fun f => (recGet r f).getD "") "股票代码"
      ((recGet r "SECURITY_CODE").getD "") F.reverse
      ⟨"SECURITY_CODE", List.mem_reverse.2 hF.1, by decide⟩
      (fun f hf hgf => by rw [hF.2 f (List.mem_reverse.1 hf) hgf])]
  rw [lookupA_map_none columnName (fun f => (recGet r f).getD "") "SECURITY_CODE" F.reverse
      (fun f _ => columnName_ne_security_code f)]
  cases hsc : recGet r "SECURITY_CODE" with
  | none => simp [pyOr, truthy]
  | some s =>
    by_cases hs : s = ""
    · subst hs
      simp [pyOr, truthy]
    · simp [pyOr, truthy, hs]

theorem extractCode_rowOf_truthy (F : List String) (hF : FAligned F) (r : Record)
    (htr : truthy (recGet r "SECURITY_CODE") = true) :
    extractCode (F.map columnName) (rowOf F r) =
      some ((recGet r "SECURITY_CODE").getD "") := by
  rw [extractCode_rowOf F hF r, if_pos htr]
  cases hsc : recGet r "SECURITY_CODE" with
  | none => rw [hsc] at htr; exact absurd htr (by decide)
  | some s => rfl

/-- Characterization of one aligned page pass: no write error, the codes of
the written rows re-extract to pairwise-distinct codes new to the set, the
set afterwards is exactly the old set plus the written codes, and every
truthy code of the page ends up in the set. -/
theorem process_page_aligned_props (F : List String) (hF : FAligned F) :
    ∀ (data : List Record) (ex : List String),
      (∀ r ∈ data, ∀ k ∈ keysOf r, k ∈ F) →
      (_process_page F data ex).raised = false ∧
      ((_process_page F data ex).written.filterMap
        (extractCode (F.map columnName))).Nodup ∧
      (∀ c ∈ (_process_page F data ex).written.filterMap (extractCode (F.map columnName)),
        c ∉ ex) ∧
      (∀ c, c ∈ (_process_page F data ex).ex ↔ c ∈ ex ∨
        c ∈ (_process_page F data ex).written.filterMap (extractCode (F.map columnName))) ∧
      (∀ r ∈ data, truthy (recGet r "SECURITY_CODE") = true →
        (recGet r "SECURITY_CODE").getD "" ∈ (_process_page F data ex).ex) := by
  intro data
  induction data with
  | nil =>
    intro ex _
    refine ⟨rfl, by simp [_process_page], by simp [_process_page], ?_, by simp⟩
    intro c
    simp [_process_page]
  | cons r rest ih =>
    intro ex hkeys
    have hrest : ∀ r2 ∈ rest, ∀ k ∈ keysOf r2, k ∈ F :=
      fun r2 h2 => hkeys r2 (List.mem_cons_of_mem _ h2)
    have hk := hkeys r (List.mem_cons_self _ _)
    have hwf : ¬ wrongFields F r = true := by simp [wrongFields_false_of_keys F r hk]
    rw [process_page_cons]
    by_cases hcond : (truthy (recGet r "SECURITY_CODE") &&
        !ex.contains ((recGet r "SECURITY_CODE").getD "")) = true
    · rw [if_pos hcond, if_neg hwf]
      obtain ⟨htr, hnotmem⟩ : truthy (recGet r "SECURITY_CODE") = true ∧
          (recGet r "SECURITY_CODE").getD "" ∉ ex := by simpa using hcond
      have hext := extractCode_rowOf_truthy F hF r htr
      obtain ⟨ihr, ihnd, ihnew, ihiff, ihall⟩ :=
        ih (ex ++ [(recGet r "SECURITY_CODE").getD ""]) hrest
      refine ⟨ihr, ?_, ?_, ?_, ?_⟩
      · rw [List.filterMap_cons, hext]
        refine List.nodup_cons.2 ⟨?_, ihnd⟩
        intro hbad
        exact ihnew _ hbad (List.mem_append_right _ (List.mem_singleton.2 rfl))
      · rw [List.filterMap_cons, hext]
        intro c hc
        rcases List.mem_cons.1 hc with rfl | hc2
        · exact hnotmem
        · intro hcex
          exact ihnew c hc2 (List.mem_append_left _ hcex)
      · intro c
        rw [List.filterMap_cons, hext]
        rw [ihiff c]
        constructor
        · rintro (hc | hc)
          · rcases List.mem_append.1 hc with hc2 | hc2
            · exact Or.inl hc2
            · exact Or.inr (List.mem_cons.2 (Or.inl (List.mem_singleton.1 hc2)))
          · exact Or.inr (List.mem_cons.2 (Or.inr hc))
        · rintro (hc | hc)
          · exact Or.inl (List.mem_append_left _ hc)
          · rcases List.mem_cons.1 hc with rfl | hc2
            · exact Or.inl (List.mem_append_right _ (List.mem_singleton.2 rfl))
            · exact Or.inr hc2
      · intro r2 hr2 htr2
        rcases List.mem_cons.1 hr2 with rfl | hr2
        · exact (ihiff _).2
            (Or.inl (List.mem_append_right _ (List.mem_singleton.2 rfl)))
        · exact ihall r2 hr2 htr2
    · rw [if_neg hcond]
      obtain ⟨ihr, ihnd, ihnew, ihiff, ihall⟩ := ih ex hrest
      refine ⟨ihr, ihnd, ihnew, ihiff, ?_⟩
      intro r2 hr2 htr2
      rcases List.mem_cons.1 hr2 with rfl | hr2
      · have hmem : (recGet r2 "SECURITY_CODE").getD "" ∈ ex := by
          by_contra hnm
          apply hcond
          simp [htr2, hnm]
        exact (ihiff _).2 (Or.inl hmem)
      · exact ihall r2 hr2 htr2

/-- A page whose truthy codes are all already known writes nothing at all. -/
theorem process_page_all_known (F : List String) :
    ∀ (data : List Record) (ex : List String),
      (∀ r ∈ data, truthy (recGet r "SECURITY_CODE") = true →
        (recGet r "SECURITY_CODE").getD "" ∈ ex) →
      _process_page F data ex = ⟨0, ex, [], false⟩ := by
  intro data
  induction data with
  | nil => intro ex _; rfl
  | cons r rest ih =>
    intro ex hall
    rw [process_page_cons]
    have hcond : ¬ (truthy (recGet r "SECURITY_CODE") &&
        !ex.contains ((recGet r "SECURITY_CODE").getD "")) = true := by
      by_cases htr : truthy (recGet r "SECURITY_CODE") = true
      · have hmem := hall r (List.mem_cons_self _ _) htr
        simp [htr, hmem]
      · simp only [Bool.not_eq_true] at htr
        simp [htr]
    rw [if_neg hcond]
    exact ih ex (fun r2 h2 => hall r2 (List.mem_cons_of_mem _ h2))

/-- A page result can only come out of the retry loop via a response whose
success flag is true. -/
theorem fetch_loop_result_some (outcome : Nat → NetOutcome) (mr : Nat) :
    ∀ (attempts : List Nat) (acc : List Nat) (res : PageResult),
      (fetch_loop outcome mr attempts acc).result = some res →
      ∃ a msg, outcome a = .response true msg (some res) := by
  intro attempts
  induction attempts with
  | nil => intro acc res h; simp [fetch_loop] at h
  | cons attempt rest ih =>
    intro acc res h
    rw [fetch_loop_cons] at h
    cases ho : outcome attempt with
    | exception =>
      rw [ho] at h
      by_cases hlt : attempt < mr
      · rw [if_pos hlt] at h
        exact ih _ _ h
      · rw [if_neg hlt] at h
        simp at h
    | response success msg r2 =>
      rw [ho] at h
      cases success with
      | true =>
        have h2 : r2 = some res := by simpa using h
        exact ⟨attempt, msg, by rw [ho, h2]⟩
      | false => simp at h

theorem fetchResult_some_net (net : Net) (year : Int) (q : String) (p : Nat)
    (res : PageResult) (h : fetchResult net year q p = some res) :
    ∃ rd a msg, get_report_date year q = .ok rd ∧
      net (build_params rd p 50) a = .response true msg (some res) := by
  rw [fetchResult] at h
  cases hfp : fetch_page net year q p 50 3 with
  | error e => rw [hfp] at h; simp at h
  | ok out =>
    rw [hfp] at h
    simp only at h
    rw [fetch_page] at hfp
    cases hgr : get_report_date year q with
    | error e => rw [hgr] at hfp; simp at hfp
    | ok rd =>
      rw [hgr] at hfp
      simp only at hfp
      obtain rfl : fetch_loop (net (build_params rd p 50)) 3 (List.range' 1 3) [] = out :=
        Except.ok.inj hfp
      obtain ⟨a, msg, hnet⟩ := fetch_loop_result_some _ 3 _ _ _ h
      exact ⟨rd, a, msg, rfl, hnet⟩

/-- The paging loop preserves the file invariant under an aligned fetch
oracle, grows the set monotonically, and records every truthy code of every
successfully fetched page into the set. -/
theorem pages_loop_aligned (F : List String) (hF : FAligned F)
    (fetchRes : Nat → Option PageResult)
    (hfr : ∀ p res, fetchRes p = some res → ∀ r ∈ res.data, ∀ k ∈ keysOf r, k ∈ F) :
    ∀ (ps : List Nat) (s : LoopState) (rows : List (List String)),
      s.raised = false →
      s.lines = (F.map columnName) :: rows →
      (rows.filterMap (extractCode (F.map columnName))).Nodup →
      (∀ c, c ∈ s.ex ↔ c ∈ rows.filterMap (extractCode (F.map columnName))) →
      ∃ rows2,
        (pages_loop fetchRes F ps s).raised = false ∧
        (pages_loop fetchRes F ps s).lines = (F.map columnName) :: rows2 ∧
        (rows2.filterMap (extractCode (F.map columnName))).Nodup ∧
        (∀ c, c ∈ (pages_loop fetchRes F ps s).ex ↔
          c ∈ rows2.filterMap (extractCode (F.map columnName))) ∧
        (∀ c ∈ s.ex, c ∈ (pages_loop fetchRes F ps s).ex) ∧
        (∀ p ∈ ps, ∀ res, fetchRes p = some res → ∀ r ∈ res.data,
          truthy (recGet r "SECURITY_CODE") = true →
          (recGet r "SECURITY_CODE").getD "" ∈ (pages_loop fetchRes F ps s).ex) := by
  intro ps
  induction ps with
  | nil =>
    intro s rows hraised hlines hnd hiff
    rw [pages_loop_nil]
    exact ⟨rows, hraised, hlines, hnd, hiff, fun c hc => hc, by simp⟩
  | cons p ps ih =>
    intro s rows hraised hlines hnd hiff
    cases hp : fetchRes p with
    | none =>
      rw [pages_loop_cons_none _ _ _ _ _ hp]
      obtain ⟨rows2, h1, h2, h3, h4, h5, h6⟩ := ih s rows hraised hlines hnd hiff
      refine ⟨rows2, h1, h2, h3, h4, h5, ?_⟩
      intro p2 hp2 res2 hres2
      rcases List.mem_cons.1 hp2 with rfl | hp2
      · rw [hp] at hres2
        exact absurd hres2 (by simp)
      · exact h6 p2 hp2 res2 hres2
    | some res =>
      have hkeys := hfr p res hp
      obtain ⟨ppr, ppnd, ppnew, ppiff, ppall⟩ :=
        process_page_aligned_props F hF res.data s.ex hkeys
      rw [pages_loop_cons_some _ _ _ _ _ res hp ppr]
      have hdis : ∀ c ∈ (_process_page F res.data s.ex).written.filterMap
          (extractCode (F.map columnName)),
          c ∉ rows.filterMap (extractCode (F.map columnName)) :=
        fun c hc hcr => ppnew c hc ((hiff c).2 hcr)
      obtain ⟨rows2, h1, h2, h3, h4, h5, h6⟩ := ih
        ⟨s.total + (_process_page F res.data s.ex).new_count,
         (_process_page F res.data s.ex).ex,
         s.lines ++ (_process_page F res.data s.ex).written,
         (_process_page F res.data s.ex).raised⟩
        (rows ++ (_process_page F res.data s.ex).written)
        ppr
        (by rw [hlines]; simp [List.cons_append])
        (by
          rw [List.filterMap_append]
          exact List.Nodup.append hnd ppnd
            (fun c hc hc2 => hdis c hc2 hc))
        (by
          intro c
          rw [List.filterMap_append, List.mem_append]
          constructor
          · intro hc
            rcases (ppiff c).1 hc with hc2 | hc2
            · exact Or.inl ((hiff c).1 hc2)
            · exact Or.inr hc2
          · rintro (hc | hc)
            · exact (ppiff c).2 (Or.inl ((hiff c).2 hc))
            · exact (ppiff c).2 (Or.inr hc))
      refine ⟨rows2, h1, h2, h3, h4, ?_, ?_⟩
      · intro c hc
        exact h5 c ((ppiff c).2 (Or.inl hc))
      · intro p2 hp2 res2 hres2 r hr htr
        rcases List.mem_cons.1 hp2 with rfl | hp2
        · rw [hp] at hres2
          obtain rfl : res = res2 := Option.some.inj hres2
          exact h5 _ (ppall r hr htr)
        · exact h6 p2 hp2 res2 hres2 r hr htr

/-- When every truthy code of every fetched page is already in the set, the
paging loop is the identity. -/
theorem pages_loop_no_new (fetchRes : Nat → Option PageResult) (F : List String) :
    ∀ (ps : List Nat) (s : LoopState),
      s.raised = false →
      (∀ p ∈ ps, ∀ res, fetchRes p = some res → ∀ r ∈ res.data,
        truthy (recGet r "SECURITY_CODE") = true →
        (recGet r "SECURITY_CODE").getD "" ∈ s.ex) →
      pages_loop fetchRes F ps s = s := by
  intro ps
  induction ps with
  | nil => intro s _ _; rfl
  | cons p ps ih =>
    intro s hraised hall
    cases hp : fetchRes p with
    | none =>
      rw [pages_loop_cons_none _ _ _ _ _ hp]
      exact ih s hraised (fun p2 h2 => hall p2 (List.mem_cons_of_mem _ h2))
    | some res =>
      have hpp := process_page_all_known F res.data s.ex
        (hall p (List.mem_cons_self _ _) res hp)
      rw [pages_loop_cons_some _ _ _ _ _ res hp (by rw [hpp])]
      rw [hpp]
      have hs2 : (⟨s.total + (0 : Nat), s.ex, s.lines ++ ([] : List (List String)),
          false⟩ : LoopState) = s := by
        obtain ⟨t, e, l, r⟩ := s
        simp only at hraised
        simp [hraised]
      rw [hs2]
      exact ih s hraised (fun p2 h2 => hall p2 (List.mem_cons_of_mem _ h2))

/-- One aligned `download` run preserves the output-file invariant, and in
its main branch produces a file whose row codes cover every truthy code of
every successfully fetched page. -/
theorem download_aligned_run (F : List String) (hF : FAligned F) (net : Net)
    (hnet : NetAligned F net) (year : Int) (quarter q : String)
    (hq : normalize_quarter quarter = .ok q)
    (st : Option (List (List String))) (hst : GoodFile F st) :
    GoodFile F (download net st none year quarter).file ∧
    (∀ res r0 rest1, fetchResult net year q 1 = some res → ¬ res.count = 0 →
      res.data = r0 :: rest1 →
      ∃ rows2,
        (download net st none year quarter).file = some ((F.map columnName) :: rows2) ∧
        (∀ r ∈ res.data, truthy (recGet r "SECURITY_CODE") = true →
          (recGet r "SECURITY_CODE").getD "" ∈
            rows2.filterMap (extractCode (F.map columnName))) ∧
        (∀ p ∈ List.range' 2 (res.pages - 1), ∀ res2,
          fetchResult net year q p = some res2 →
          ∀ r ∈ res2.data, truthy (recGet r "SECURITY_CODE") = true →
          (recGet r "SECURITY_CODE").getD "" ∈
            rows2.filterMap (extractCode (F.map columnName)))) := by
  have hfr : ∀ p res2, fetchResult net year q p = some res2 →
      ∀ r ∈ res2.data, ∀ k ∈ keysOf r, k ∈ F := by
    intro p res2 h2
    obtain ⟨rd, a, msg, _, hresp⟩ := fetchResult_some_net net year q p res2 h2
    exact (hnet _ _ _ _ hresp).1
  simp only [download, hq]
  cases h1 : fetchResult net year q 1 with
  | none =>
    refine ⟨hst, ?_⟩
    intro res r0 rest1 h1' _ _
    exact absurd h1' (by simp)
  | some res =>
    dsimp only
    by_cases hc0 : res.count = 0
    · rw [if_pos hc0]
      refine ⟨hst, ?_⟩
      intro res2 r0 rest1 h1' hc0' _
      obtain rfl : res = res2 := Option.some.inj h1'
      exact absurd hc0 hc0'
    · rw [if_neg hc0]
      cases hd : res.data with
      | nil =>
        refine ⟨hst, ?_⟩
        intro res2 r0 rest1 h1' _ hd'
        obtain rfl : res = res2 := Option.some.inj h1'
        rw [hd] at hd'
        exact absurd hd' (by simp)
      | cons r0 rest1 =>
        have hkr0 : keysOf r0 = F := by
          obtain ⟨rd, a, msg, _, hresp⟩ := fetchResult_some_net net year q 1 res h1
          exact (hnet _ _ _ _ hresp).2 r0 rest1 hd
        dsimp only
        rw [hkr0]
        obtain ⟨rows0, hlines0, hnd0, hiff0⟩ :
            ∃ rows0,
              (st.getD [] ++ (if file_nonempty st = true then []
                else [F.map columnName])) = (F.map columnName) :: rows0 ∧
              (rows0.filterMap (extractCode (F.map columnName))).Nodup ∧
              (∀ c, c ∈ load_existing_codes st none ↔
                c ∈ rows0.filterMap (extractCode (F.map columnName))) := by
          cases st with
          | none => exact ⟨[], rfl, by simp, by simp [load_existing_codes]⟩
          | some lines =>
            cases lines with
            | nil =>
              exact ⟨[], rfl, by simp, by simp [load_existing_codes]⟩
            | cons hd0 rows =>
              obtain ⟨hhd, hnd⟩ := hst
              subst hhd
              refine ⟨rows, by simp [file_nonempty], hnd, ?_⟩
              intro c
              rw [load_existing_codes, mem_collect_codes]
              simp
        have hkeys1 : ∀ r ∈ r0 :: rest1, ∀ k ∈ keysOf r, k ∈ F := by
          rw [← hd]
          exact hfr 1 res h1
        obtain ⟨p1r, p1nd, p1new, p1iff, p1all⟩ :=
          process_page_aligned_props F hF (r0 :: rest1) (load_existing_codes st none) hkeys1
        have hnd1 : ((rows0 ++ (_process_page F (r0 :: rest1)
            (load_existing_codes st none)).written).filterMap
              (extractCode (F.map columnName))).Nodup := by
          rw [List.filterMap_append]
          exact List.Nodup.append hnd0 p1nd
            (fun c hc hc2 => p1new c hc2 ((hiff0 c).2 hc))
        have hiff1 : ∀ c, c ∈ (_process_page F (r0 :: rest1)
            (load_existing_codes st none)).ex ↔
            c ∈ (rows0 ++ (_process_page F (r0 :: rest1)
              (load_existing_codes st none)).written).filterMap
                (extractCode (F.map columnName)) := by
          intro c
          rw [List.filterMap_append, List.mem_append, p1iff c]
          constructor
          · rintro (hc | hc)
            · exact Or.inl ((hiff0 c).1 hc)
            · exact Or.inr hc
          · rintro (hc | hc)
            · exact Or.inl ((hiff0 c).2 hc)
            · exact Or.inr hc
        have hlines1 : ((st.getD [] ++ (if file_nonempty st = true then []
            else [F.map columnName])) ++ (_process_page F (r0 :: rest1)
              (load_existing_codes st none)).written)
            = (F.map columnName) :: (rows0 ++ (_process_page F (r0 :: rest1)
              (load_existing_codes st none)).written) := by
          rw [hlines0]
          simp [List.cons_append]
        obtain ⟨rows2, l1, l2, l3, l4, l5, l6⟩ := pages_loop_aligned F hF
          (fetchResult net year q) hfr (List.range' 2 (res.pages - 1))
          ⟨(_process_page F (r0 :: rest1) (load_existing_codes st none)).new_count,
           (_process_page F (r0 :: rest1) (load_existing_codes st none)).ex,
           (st.getD [] ++ (if file_nonempty st = true then []
             else [F.map columnName])) ++ (_process_page F (r0 :: rest1)
               (load_existing_codes st none)).written,
           (_process_page F (r0 :: rest1) (load_existing_codes st none)).raised⟩
          (rows0 ++ (_process_page F (r0 :: rest1)
            (load_existing_codes st none)).written)
          p1r hlines1 hnd1 hiff1
        rw [if_neg (by rw [p1r]; simp)]
        rw [if_neg (by rw [l1]; simp)]
        rw [l2]
        refine ⟨⟨rfl, l3⟩, ?_⟩
        intro res2 r0' rest1' h1' _ _
        obtain rfl : res = res2 := Option.some.inj h1'
        refine ⟨rows2, rfl, ?_, ?_⟩
        · intro r hr htr
          rw [hd] at hr
          exact (l4 _).1 (l5 _ (p1all r hr htr))
        · intro p hp res3 hres3 r hr htr
          exact (l4 _).1 (l6 p hp res3 hres3 r hr htr)

theorem runs_cons (net : Net) (rest : List Net) (year : Int) (quarter : String)
    (st : Option (List (List String))) :
    runs (net :: rest) year quarter st =
      runs rest year quarter (download net st none year quarter).file := rfl

theorem runs_goodfile (F : List String) (hF : FAligned F) (year : Int)
    (quarter q : String) (hq : normalize_quarter quarter = .ok q) :
    ∀ (nets : List Net), (∀ net ∈ nets, NetAligned F net) →
      ∀ st, GoodFile F st → GoodFile F (runs nets year quarter st) := by
  intro nets
  induction nets with
  | nil => intro _ st hst; exact hst
  | cons net rest ih =>
    intro hnets st hst
    rw [runs_cons]
    exact ih (fun n h => hnets n (List.mem_cons_of_mem _ h)) _
      ((download_aligned_run F hF net (hnets net (List.mem_cons_self _ _))
        year quarter q hq st hst).1)

theorem goodfile_nodup_fileCodes (F : List String) (file : Option (List (List String)))
    (h : GoodFile F file) : (fileCodes file).Nodup := by
  cases file with
  | none => simp [fileCodes]
  | some lines =>
    cases lines with
    | nil => simp [fileCodes]
    | cons hd rows => exact h.2

/-- A constant network serving one fixed successful page is aligned with `F`
whenever its records are. -/
theorem netAligned_const (F : List String) (pr : PageResult)
    (hkeys : ∀ r ∈ pr.data, ∀ k ∈ keysOf r, k ∈ F)
    (hhead : ∀ r0 rest, pr.data = r0 :: rest → keysOf r0 = F) :
    NetAligned F (fun _ _ => .response true none (some pr)) := by
  intro params attempt msg res h
  have hres : pr = res := by
    have h2 : NetOutcome.response true none (some pr) =
        NetOutcome.response true msg (some res) := h
    injection h2 with h1 h2b h3
    exact Option.some.inj h3
  subst hres
  exact ⟨hkeys, hhead⟩

/-- The singleton field list `[SECURITY_CODE]` is aligned. -/
theorem fAligned_single : FAligned ["SECURITY_CODE"] := by
  constructor
  · exact List.mem_singleton.2 rfl
  · intro f hf _
    exact List.mem_singleton.1 hf

/-- C1 counterexample: two runs over the same unit — the second observing
the same field set in a different order — leave the output file with two
rows whose security code is 001, violating the claim as stated. -/
theorem runs_duplicate_counterexample :
    ¬ (fileCodes (runs [cexNet1, cexNet2] 2024 "Q4" none)).Nodup := by decide

/-- C1 amended: provided all runs observe one fixed field list — the same
fields in the same order, containing `SECURITY_CODE` and no other field
whose localized label is `股票代码` — and each run loads the existing-keys
set from the file's actual contents, the output file of any number of
download runs contains at most one row per security code. -/
theorem runs_no_duplicate_codes (F : List String) (nets : List Net) (year : Int)
    (quarter q : String) (hF : FAligned F) (hq : normalize_quarter quarter = .ok q)
    (hnets : ∀ net ∈ nets, NetAligned F net) :
    (fileCodes (runs nets year quarter none)).Nodup :=
  goodfile_nodup_fileCodes F _
    (runs_goodfile F hF year quarter q hq nets hnets none trivial)

/-- Witness for C1 on two aligned runs: the rerun adds the new code only
once and the file's codes stay duplicate-free. -/
theorem runs_no_duplicate_codes_witness :
    FAligned ["SECURITY_CODE"] ∧ normalize_quarter "Q4" = .ok "Q4" ∧
    (∀ net ∈ [wNet1, wNet2], NetAligned ["SECURITY_CODE"] net) ∧
    (fileCodes (runs [wNet1, wNet2] 2024 "Q4" none)).Nodup := by
  have hA1 : NetAligned ["SECURITY_CODE"] wNet1 := by
    refine netAligned_const _ _ (by decide) ?_
    intro r0 rest h
    obtain ⟨h1, -⟩ := List.cons.inj h
    rw [← h1]
    decide
  have hA2 : NetAligned ["SECURITY_CODE"] wNet2 := by
    refine netAligned_const _ _ (by decide) ?_
    intro r0 rest h
    obtain ⟨h1, -⟩ := List.cons.inj h
    rw [← h1]
    decide
  have hnets : ∀ net ∈ [wNet1, wNet2], NetAligned ["SECURITY_CODE"] net := by
    intro n hn
    rcases List.mem_cons.1 hn with rfl | hn2
    · exact hA1
    · rcases List.mem_cons.1 hn2 with rfl | hn3
      · exact hA2
      · simp at hn3
  exact ⟨fAligned_single, by decide, hnets,
    runs_no_duplicate_codes ["SECURITY_CODE"] [wNet1, wNet2] 2024 "Q4" "Q4"
      fAligned_single (by decide) hnets⟩

/-- C9 counterexample: a page whose record carries a raw field literally
named `股票代码` after `SECURITY_CODE` gives both columns the same header
label, and `dict(zip(...))` keeps the last one, so the resume scan reads
the wrong column and an identical second run appends the same record
again — returning 1, not 0, and growing the file. -/
theorem download_idempotent_counterexample :
    (download cexNet3 (download cexNet3 none none 2024 "Q4").file none
      2024 "Q4").ret ≠ .ok 0 ∧
    (download cexNet3 (download cexNet3 none none 2024 "Q4").file none
      2024 "Q4").file ≠ (download cexNet3 none none 2024 "Q4").file := by
  decide

/-- C9 amended: starting with no output file and a network whose pages all
observe one aligned field list, running `download` twice with the same
remote data makes the second run return 0 new records and leave the output
file unchanged. -/
theorem download_idempotent (F : List String) (net : Net) (year : Int)
    (quarter q : String) (hF : FAligned F) (hnet : NetAligned F net)
    (hq : normalize_quarter quarter = .ok q) :
    download net (download net none none year quarter).file none year quarter =
      ⟨.ok 0, (download net none none year quarter).file⟩ := by
  obtain ⟨hgood, hmain⟩ := download_aligned_run F hF net hnet year quarter q hq none trivial
  cases h1 : fetchResult net year q 1 with
  | none =>
    have hrun1 : download net none none year quarter = ⟨.ok 0, none⟩ := by
      simp [download, hq, h1]
    rw [hrun1]
    exact hrun1
  | some res =>
    by_cases hc0 : res.count = 0
    · have hrun1 : download net none none year quarter = ⟨.ok 0, none⟩ := by
        simp [download, hq, h1, hc0]
      rw [hrun1]
      exact hrun1
    · cases hd : res.data with
      | nil =>
        have hrun1 : download net none none year quarter = ⟨.ok 0, none⟩ := by
          simp [download, hq, h1, hc0, hd]
        rw [hrun1]
        exact hrun1
      | cons r0 rest1 =>
        obtain ⟨rows2, hfile, hcomp1, hcomppages⟩ := hmain res r0 rest1 h1 hc0 hd
        have hkr0 : keysOf r0 = F := by
          obtain ⟨rd, a, msg, _, hresp⟩ := fetchResult_some_net net year q 1 res h1
          exact (hnet _ _ _ _ hresp).2 r0 rest1 hd
        have hex : ∀ c, c ∈ load_existing_codes (some ((F.map columnName) :: rows2)) none ↔
            c ∈ rows2.filterMap (extractCode (F.map columnName)) := by
          intro c
          rw [load_existing_codes, mem_collect_codes]
          simp
        have hpp1 : _process_page F (r0 :: rest1)
            (load_existing_codes (some ((F.map columnName) :: rows2)) none) =
            ⟨0, load_existing_codes (some ((F.map columnName) :: rows2)) none, [], false⟩ := by
          apply process_page_all_known
          intro r hr htr
          exact (hex _).2 (hcomp1 r (by rw [hd]; exact hr) htr)
        rw [hfile]
        simp only [download, hq, h1]
        rw [if_neg hc0]
        simp only [hd]
        rw [hkr0, hpp1]
        rw [if_neg (by simp)]
        rw [pages_loop_no_new (fetchResult net year q) F (List.range' 2 (res.pages - 1)) _
          (by simp)
          (by
            intro p hp res2 hres2 r hr htr
            exact (hex _).2 (hcomppages p hp res2 hres2 r hr htr))]
        rw [if_neg (by simp)]
        simp [file_nonempty]

/-- Witness for C9 at a concrete aligned two-record page. -/
theorem download_idempotent_witness :
    FAligned ["SECURITY_CODE"] ∧ NetAligned ["SECURITY_CODE"] wNet2 ∧
    normalize_quarter "Q4" = .ok "Q4" ∧
    download wNet2 (download wNet2 none none 2024 "Q4").file none 2024 "Q4" =
      ⟨.ok 0, (download wNet2 none none 2024 "Q4").file⟩ := by
  have hA2 : NetAligned ["SECURITY_CODE"] wNet2 := by
    refine netAligned_const _ _ (by decide) ?_
    intro r0 rest h
    obtain ⟨h1, -⟩ := List.cons.inj h
    rw [← h1]
    decide
  exact ⟨fAligned_single, hA2, by decide,
    download_idempotent ["SECURITY_CODE"] wNet2 2024 "Q4" "Q4" fAligned_single hA2
      (by decide)⟩

/-- Witness for C10 at the alias `半年报` for `Q2`. -/
theorem period_alias_coherence_witness :
    normalize_quarter "半年报" = .ok "Q2" ∧
    (get_report_date 2024 "半年报" = get_report_date 2024 "Q2" ∧
     get_output_filepath "." 2024 "半年报" = get_output_filepath "." 2024 "Q2" ∧
     download (fun _ _ => NetOutcome.exception) none none 2024 "半年报" =
       download (fun _ _ => NetOutcome.exception) none none 2024 "Q2") :=
  ⟨by decide,
   period_alias_coherence (fun _ _ => NetOutcome.exception) none none "." "半年报" "Q2" 2024
     (by decide)⟩

end EastMoney
